import Mathlib

/-!
Verification development for the Discord translation-bot message relay pipeline.

The repository ships two revisions of the pipeline. `src/_main.js` holds two
variants of the current revision: an earlier variant with a per-author rate
limiter, placeholder retry and output chunking, and a later variant with a
sequential queue, an edit-reuse map, a "not translatable" sentinel, a reply
chain walk (`generateResponse`) and a capped loading animation.
`src/main_0603.js` is the older revision, whose hourly retention sweeper
(`infiniteCleanMessages`) is modelled below as well.

Message ids, channel ids and author ids are modelled as `Nat`. JavaScript
`Map`s / plain objects keyed by id are modelled as association lists with
replace-on-set semantics, and JavaScript `Set`s as duplicate-free `List Nat`.
External collaborators (the Discord gateway fetch and the translatability
predicate) are passed in as functions, mirroring their call sites.
-/

/-! ## Association list primitives (JS Map / plain object semantics) -/

/-- Lookup of the first binding of key `k`, as `map.get(k)` / `obj[k]`. -/
def assocGet {β : Type} : List (Nat × β) → Nat → Option β
  | [], _ => none
  | p :: rest, k => if p.1 = k then some p.2 else assocGet rest k

/-- Removal of every binding of key `k`, as `map.delete(k)` / `delete obj[k]`. -/
def assocErase {β : Type} (k : Nat) : List (Nat × β) → List (Nat × β)
  | [] => []
  | p :: rest => if p.1 = k then assocErase k rest else p :: assocErase k rest

/-- Replace-on-set insertion, as `map.set(k, v)` / `obj[k] = v`. -/
def assocSet {β : Type} (l : List (Nat × β)) (k : Nat) (v : β) : List (Nat × β) :=
  (k, v) :: assocErase k l

/-- Membership test, as `map.has(k)` / `obj.hasOwnProperty(k)`. -/
def assocHas {β : Type} (l : List (Nat × β)) (k : Nat) : Bool :=
  (assocGet l k).isSome

/-! ## Data model of the later variant in `src/_main.js`

The message cache stores `{ text, reference, author }` records
(`messageCache.set(message.id, { text, reference: ..., author: ... })`). -/

/-- Record shape cached by the later variant of `src/_main.js`. -/
structure CacheRecord where
  text : String
  reference : Option Nat
  author : String
deriving Repr, DecidableEq

/-- Message cache keyed by message id (`LRUCache` used as a keyed store;
the capacity/TTL eviction of the library is not exercised by any theorem). -/
abbrev Cache := List (Nat × CacheRecord)

/-- Dialog turn submitted to the language model: `{ role, content, name }`.
The instruction turn carries no `name` field in the source, hence `Option`. -/
structure DialogTurn where
  role : String
  content : String
  name : Option String
deriving Repr, DecidableEq

/-- Turn built for one resolved record inside `generateResponse`:
role is `assistant` when the id is one of the bot's own messages
(`thisBotMessages.has(lastChainId)`), `user` otherwise. -/
def turnFor (botMessages : List Nat) (id : Nat) (r : CacheRecord) : DialogTurn :=
  { role := if id ∈ botMessages then "assistant" else "user"
    content := r.text
    name := some r.author }

/-- Reply chain walk of `generateResponse` (`src/_main.js`, later variant):
starting from `lastChainId`, resolve the current id via the cache, falling
back to a gateway fetch (`channel.messages.fetch`, modelled by `fetch`) which
inserts the fetched record into the cache; push a turn for the resolved
record; follow `reference` to the parent. The source loop is `while (true)`
with breaks on an unresolvable id or an absent reference and carries no other
exit, so the embedding spends one unit of `fuel` per iteration and returns
`none` when the iteration budget is exhausted without reaching a break. -/
def dialogWalk (fetch : Nat → Option CacheRecord) (botMessages : List Nat) :
    Nat → Cache → Nat → List DialogTurn → Option (List DialogTurn × Cache)
  | 0, _, _, _ => none
  | fuel + 1, cache, lastChainId, dialog =>
    match assocGet cache lastChainId with
    | some cached =>
      match cached.reference with
      | none => some (dialog ++ [turnFor botMessages lastChainId cached], cache)
      | some ref =>
          dialogWalk fetch botMessages fuel cache ref
            (dialog ++ [turnFor botMessages lastChainId cached])
    | none =>
      match fetch lastChainId with
      | none => some (dialog, cache)
      | some msg =>
        let cache' := assocSet cache lastChainId msg
        match msg.reference with
        | none => some (dialog ++ [turnFor botMessages lastChainId msg], cache')
        | some ref =>
            dialogWalk fetch botMessages fuel cache' ref
              (dialog ++ [turnFor botMessages lastChainId msg])

/-- Dialog assembly of `generateResponse`: run the walk, reverse the collected
turns to oldest-first order, and append the instruction turn
(`dialog.push({ role: 'system', content: SYSTEM_PROMPT })`). -/
def buildDialog (fetch : Nat → Option CacheRecord) (botMessages : List Nat)
    (systemPrompt : String) (fuel : Nat) (cache : Cache) (messageId : Nat) :
    Option (List DialogTurn × Cache) :=
  (dialogWalk fetch botMessages fuel cache messageId []).map
    (fun r => (r.1.reverse ++ ([⟨"system", systemPrompt, none⟩] : List DialogTurn), r.2))

/-- Cache holding a two-message reference cycle: message 1 replies to
message 2 and message 2 replies to message 1. -/
def cycleCache : Cache :=
  [(1, ⟨"first", some 2, "alice"⟩), (2, ⟨"second", some 1, "bob"⟩)]

/-- Linear reply chain, leaf first: `ReplyChain i chain` states that `chain`
pairs each id with its record, starts at id `i`, each record references the
next entry's id, and the last record is a root (no reference). -/
inductive ReplyChain : Nat → List (Nat × CacheRecord) → Prop where
  | root (i : Nat) (r : CacheRecord) (h : r.reference = none) :
      ReplyChain i [(i, r)]
  | step (i : Nat) (r : CacheRecord) (j : Nat) (rest : List (Nat × CacheRecord))
      (h : r.reference = some j) (tail : ReplyChain j rest) :
      ReplyChain i ((i, r) :: rest)

/-- Resolvability of one chain entry: the id is found in the cache, or misses
the cache and is delivered by the gateway fetch. -/
def Resolves (cache : Cache) (fetch : Nat → Option CacheRecord)
    (e : Nat × CacheRecord) : Prop :=
  assocGet cache e.1 = some e.2 ∨
    (assocGet cache e.1 = none ∧ fetch e.1 = some e.2)

instance (cache : Cache) (fetch : Nat → Option CacheRecord) (e : Nat × CacheRecord) :
    Decidable (Resolves cache fetch e) := by
  unfold Resolves; infer_instance

/-! ## Sequential queue (`enqueueMessage` / `processQueue` in `src/_main.js`)

Inbound events are pushed onto `messageQueue`; a single drain loop shifts the
head and fully awaits `handleMessage` on it before shifting the next, and the
`isProcessingQueue` flag prevents a second concurrent drain. The abstract
machine below has exactly those two transitions: an event arrives at the tail,
or the head event is processed in full, appending its posted outputs to the
log. -/

/-- State of the sequential queue: every event that ever arrived in arrival
order, the still-pending suffix, and the log of posted outputs. -/
structure QueueState (ε ω : Type) where
  arrived : List ε
  pending : List ε
  log : List ω
deriving Repr, DecidableEq

/-- Transitions of the queue: `arrive` appends an event to the tail
(`messageQueue.push`), `process` removes the head (`messageQueue.shift()`) and
appends every output `handleMessage` posts for it, in one atomic step, since
the drain loop awaits `handleMessage` to completion before the next shift. -/
inductive QueueStep {ε ω : Type} (handler : ε → List ω) :
    QueueState ε ω → QueueState ε ω → Prop where
  | arrive (s : QueueState ε ω) (e : ε) :
      QueueStep handler s ⟨s.arrived ++ [e], s.pending ++ [e], s.log⟩
  | process (s : QueueState ε ω) (e : ε) (rest : List ε)
      (h : s.pending = e :: rest) :
      QueueStep handler s ⟨s.arrived, rest, s.log ++ handler e⟩

/-- States reachable from the empty queue. -/
inductive QueueReachable {ε ω : Type} (handler : ε → List ω) :
    QueueState ε ω → Prop where
  | init : QueueReachable handler ⟨[], [], []⟩
  | step (s t : QueueState ε ω) (hs : QueueReachable handler s)
      (hst : QueueStep handler s t) : QueueReachable handler t

/-- Full drain of a quiescent queue: the body of `processQueue`, shifting and
handling events until the queue is empty. -/
def drainAll {ε ω : Type} (handler : ε → List ω) : List ε → List ω
  | [] => []
  | e :: rest => handler e ++ drainAll handler rest

/-! ## Earlier variant in `src/_main.js`: rate limiter and orchestrator entry

`handleMessage` there runs, in order: shutdown check, bot-author check,
`rateLimiter.consume(message.author.id)` (silent return when it throws), the
3000-character length check (warning reply), the translatability filter
(silent return), then the cache write and the placeholder / language-model
stage. -/

/-- Point budget of the rate limiter (`RATE_LIMIT_POINTS`). -/
def RATE_LIMIT_POINTS : Nat := 5

/-- Window length of the rate limiter in milliseconds
(`RATE_LIMIT_DURATION` is 1 second). -/
def RATE_LIMIT_DURATION_MS : Nat := 1000

/-- Absolute maximum accepted input length (`MAX_MESSAGE_LENGTH`). -/
def MAX_MESSAGE_LENGTH : Nat := 3000

/-- Per-author token-bucket entry: points consumed in the current window and
the window start time. -/
structure RateEntry where
  consumedPoints : Nat
  windowStart : Nat
deriving Repr, DecidableEq

/-- Rate limiter state, keyed by author id. -/
abbrev RateState := List (Nat × RateEntry)

/-- Modelled from the spec: the external `rate-limiter-flexible`
`RateLimiterMemory` collaborator (its implementation is not part of the
repository). Per spec section 4.2 it is a per-author token bucket: a fixed
point budget (`RATE_LIMIT_POINTS`) refills every fixed duration window, each
accepted message consumes one point, and a consume beyond the budget is
rejected without consuming anything. -/
def rateConsume (now : Nat) (st : RateState) (key : Nat) : Bool × RateState :=
  match assocGet st key with
  | none => (true, assocSet st key ⟨1, now⟩)
  | some e =>
    if e.windowStart + RATE_LIMIT_DURATION_MS ≤ now then
      (true, assocSet st key ⟨1, now⟩)
    else if e.consumedPoints < RATE_LIMIT_POINTS then
      (true, assocSet st key ⟨e.consumedPoints + 1, e.windowStart⟩)
    else
      (false, st)

/-- Inbound Discord message event, with the fields the orchestrator reads. -/
structure InboundMessage where
  id : Nat
  authorId : Nat
  authorIsBot : Bool
  content : String
  createdTimestamp : Nat
  referenceMessageId : Option Nat
  authorName : String
deriving Repr, DecidableEq

/-- Record shape cached by the earlier variant of `src/_main.js`
(`{ id, referenceMessageId, time, authorName, text }`). -/
structure StoredRecord where
  id : Nat
  referenceMessageId : Option Nat
  time : Nat
  authorName : String
  text : String
deriving Repr, DecidableEq

/-- Exit taken by one `handleMessage` invocation of the earlier variant. -/
inductive HandleOutcome where
  | shutdownIgnored
  | ownRecorded
  | botIgnored
  | rateLimited
  | lengthRejected
  | filtered
  | processed
deriving Repr, DecidableEq

/-- Observable effects of one `handleMessage` invocation of the earlier
variant, up to and including entry into the placeholder / language-model
stage (`placeholderCreated` / `lmCalled` summarize that the run reached it). -/
structure HandleEffects where
  outcome : HandleOutcome
  ratePointConsumed : Bool
  filterEvaluated : Bool
  warningSent : Bool
  cacheWritten : Bool
  placeholderCreated : Bool
  lmCalled : Bool
deriving Repr, DecidableEq

/-- Effects record for a path that produced no side effect at all. -/
def noEffects (o : HandleOutcome) : HandleEffects :=
  ⟨o, false, false, false, false, false, false⟩

/-- Mutable state touched by the earlier variant's entry path. -/
structure PipelineState where
  rate : RateState
  cache : List (Nat × StoredRecord)
deriving Repr, DecidableEq

/-- Entry path of `handleMessage` in the earlier variant of `src/_main.js`,
with the translatability filter passed in as the pure predicate it is
(no theorem below depends on its internals). Mirrors the source order:
shutdown, bot author, rate-limit consume, length check with warning reply,
filter, cache write, then the placeholder / language-model stage. -/
def handleMessageEntry (isTranslatable : String → Bool) (selfId : Nat)
    (needShutdown : Bool) (now : Nat) (st : PipelineState) (m : InboundMessage) :
    HandleEffects × PipelineState :=
  if needShutdown then (noEffects .shutdownIgnored, st)
  else if m.authorIsBot then
    (noEffects (if m.authorId = selfId then .ownRecorded else .botIgnored), st)
  else
    match rateConsume now st.rate m.authorId with
    | (false, rate') => (noEffects .rateLimited, { st with rate := rate' })
    | (true, rate') =>
      let st' : PipelineState := { st with rate := rate' }
      if MAX_MESSAGE_LENGTH ≤ m.content.length then
        ({ noEffects .lengthRejected with ratePointConsumed := true, warningSent := true },
         st')
      else if isTranslatable m.content = false then
        ({ noEffects .filtered with ratePointConsumed := true, filterEvaluated := true },
         st')
      else
        ({ outcome := .processed, ratePointConsumed := true, filterEvaluated := true,
           warningSent := false, cacheWritten := true, placeholderCreated := true,
           lmCalled := true },
         { st' with
            cache := assocSet st'.cache m.id
              ⟨m.id, m.referenceMessageId, m.createdTimestamp, m.authorName, m.content⟩ })

/-! ## Later variant in `src/_main.js`: response finalization and timers -/

/-- Fixed user-visible error text (`ERROR_MESSAGE`). -/
def ERROR_MESSAGE : String := "❗ OnionBot failed to translate. Please try again."

/-- Sentinel phrase recognized in generated output
(`NOT_TRANSLATABLE_KEYWORD`). -/
def NOT_TRANSLATABLE_KEYWORD : String := "not translatable"

/-- Cap on the loading animation (`MAX_LOADING_DURATION_MS`). -/
def MAX_LOADING_DURATION_MS : Nat := 10000

/-- Check that `pat` occurs at the head of `l`. -/
def headMatches : List Char → List Char → Bool
  | [], _ => true
  | _ :: _, [] => false
  | p :: ps, c :: cs => p = c && headMatches ps cs

/-- Check that `pat` occurs contiguously anywhere in `l`
(the semantics of `String.prototype.includes`). -/
def containsSeq (pat : List Char) : List Char → Bool
  | [] => pat.isEmpty
  | c :: cs => headMatches pat (c :: cs) || containsSeq pat cs

/-- Sentinel test on the generated response
(`!response || response.toLowerCase().includes(NOT_TRANSLATABLE_KEYWORD)`;
a falsy string response is the empty string). -/
def isNotTranslatableResponse (s : String) : Bool :=
  s.isEmpty || containsSeq NOT_TRANSLATABLE_KEYWORD.data s.toLower.data

/-- Gateway calls issued while finalizing one response. -/
inductive RenderAction where
  | clearLoadingInterval
  | clearLoadingTimeout
  | editMessage (id : Nat) (text : String)
  | deleteMessage (id : Nat)
  | addOwnMessage (id : Nat)
  | setReplyMap (originalId replyId : Nat)
deriving Repr, DecidableEq

/-- Try block of the later variant's `handleMessage` after the placeholder is
posted: await the generated response (an `Except.error` models the
language-model collaborator throwing, which the try block propagates to the
catch), stop the animation interval and its cap timeout, then branch on the
sentinel, on an existing previous reply for an edited message, and otherwise
finalize the placeholder. -/
def afterPlaceholderTry (messageId placeholderId : Nat) (hasReply : Bool)
    (existingReply : Option Nat) (gen : Except String String) :
    Except String (List RenderAction) :=
  match gen with
  | Except.error e => Except.error e
  | Except.ok response =>
    if isNotTranslatableResponse response then
      Except.ok [RenderAction.clearLoadingInterval, RenderAction.clearLoadingTimeout,
                 RenderAction.deleteMessage placeholderId]
    else
      match hasReply, existingReply with
      | true, some existing =>
          Except.ok [RenderAction.clearLoadingInterval, RenderAction.clearLoadingTimeout,
                     RenderAction.editMessage existing response,
                     RenderAction.deleteMessage placeholderId]
      | _, _ =>
          Except.ok [RenderAction.clearLoadingInterval, RenderAction.clearLoadingTimeout,
                     RenderAction.editMessage placeholderId response,
                     RenderAction.addOwnMessage placeholderId,
                     RenderAction.setReplyMap messageId placeholderId]

/-- Catch block of the later variant's `handleMessage`: stop both timers,
then write `ERROR_MESSAGE` into the existing previous reply when one is
fetchable (deleting the placeholder), or into the placeholder otherwise. -/
def afterPlaceholderCatch (placeholderId : Nat) (hasReply : Bool)
    (existingReply : Option Nat) : List RenderAction :=
  match hasReply, existingReply with
  | true, some existing =>
      [RenderAction.clearLoadingInterval, RenderAction.clearLoadingTimeout,
       RenderAction.editMessage existing ERROR_MESSAGE,
       RenderAction.deleteMessage placeholderId]
  | _, _ =>
      [RenderAction.clearLoadingInterval, RenderAction.clearLoadingTimeout,
       RenderAction.editMessage placeholderId ERROR_MESSAGE]

/-- Whole try/catch of the later variant's `handleMessage` after the
placeholder is posted: any error of the try block is caught and turned into
the catch block's gateway calls, so the handler always completes with a plain
action list. -/
def afterPlaceholder (messageId placeholderId : Nat) (hasReply : Bool)
    (existingReply : Option Nat) (gen : Except String String) : List RenderAction :=
  match afterPlaceholderTry messageId placeholderId hasReply existingReply gen with
  | Except.ok acts => acts
  | Except.error _ => afterPlaceholderCatch placeholderId hasReply existingReply

/-- Liveness flags of the two timers attached to one placeholder:
the 500 ms frame-advance interval and the 10 s cap timeout. -/
structure Timers where
  intervalActive : Bool
  timeoutActive : Bool
deriving Repr, DecidableEq

/-- Effect of one gateway call on the timers
(`clearInterval` / `clearTimeout`). -/
def applyAction (t : Timers) : RenderAction → Timers
  | RenderAction.clearLoadingInterval => { t with intervalActive := false }
  | RenderAction.clearLoadingTimeout => { t with timeoutActive := false }
  | _ => t

/-- Timers after a list of gateway calls. -/
def applyActions (t : Timers) (l : List RenderAction) : Timers :=
  l.foldl applyAction t

/-- Timer states over time, one millisecond per step, for a placeholder whose
terminal call (success, sentinel deletion or failure, all of which clear both
timers) happens at `terminalAt`, or has not happened yet (`none`). The cap
timeout registered at start (`setTimeout(() => clearInterval(loadingInterval),
MAX_LOADING_DURATION_MS)`) fires once at `MAX_LOADING_DURATION_MS` if it was
not cleared before, stopping the interval. -/
def timersAt (terminalAt : Option Nat) : Nat → Timers
  | 0 => ⟨true, true⟩
  | t + 1 =>
    if t + 1 = MAX_LOADING_DURATION_MS ∧
        (if terminalAt = some (t + 1) then (⟨false, false⟩ : Timers)
         else timersAt terminalAt t).timeoutActive = true then
      ⟨false, false⟩
    else
      if terminalAt = some (t + 1) then (⟨false, false⟩ : Timers)
      else timersAt terminalAt t

/-! ## Earlier variant in `src/_main.js`: oversized output delivery -/

/-- Per-message size limit applied to outputs (`MAX_DISCORD_MESSAGE_LENGTH`). -/
def MAX_DISCORD_MESSAGE_LENGTH : Nat := 1950

/-- One overflow chunk posted by the delivery loop: the message it was sent
as a reply to, the id the gateway assigned to it, and its text. -/
structure SentChunk where
  replyTarget : Nat
  newId : Nat
  text : List Char
deriving Repr, DecidableEq

/-- Overflow loop of the earlier variant (`while (responseLeft !== '')`):
each iteration takes the next `MAX_DISCORD_MESSAGE_LENGTH` characters and
posts them with `message.reply(s)`, a reply to the original message — the
`prevMessage` variable is reassigned to each new chunk but never used as a
reply target. New ids are allocated sequentially from `nextId`. Every
iteration drops at least one character, so a fuel of the remaining length
is strictly more than the loop can iterate; the fuel never runs out. -/
def overflowChunkLoop (origMsgId : Nat) : Nat → Nat → List Char → List SentChunk
  | 0, _, _ => []
  | fuel + 1, nextId, left =>
    if left = [] then []
    else
      { replyTarget := origMsgId, newId := nextId,
        text := left.take MAX_DISCORD_MESSAGE_LENGTH } ::
        overflowChunkLoop origMsgId fuel (nextId + 1)
          (left.drop MAX_DISCORD_MESSAGE_LENGTH)

/-- Delivery calls of the earlier variant after a successful generation. -/
inductive DeliveryAction where
  | editPlaceholder (placeholderId : Nat) (text : List Char)
  | sendChunk (c : SentChunk)
deriving Repr, DecidableEq

/-- Response delivery of the earlier variant's `handleMessage`: a short
response is edited into the placeholder whole; an oversized response has its
first `MAX_DISCORD_MESSAGE_LENGTH` characters edited into the placeholder and
the rest posted by `overflowChunkLoop`. -/
def deliverResponse (origMsgId placeholderId nextId : Nat)
    (response : List Char) : List DeliveryAction :=
  if response.length ≤ MAX_DISCORD_MESSAGE_LENGTH then
    [DeliveryAction.editPlaceholder placeholderId response]
  else
    DeliveryAction.editPlaceholder placeholderId
        (response.take MAX_DISCORD_MESSAGE_LENGTH) ::
      (overflowChunkLoop origMsgId response.length nextId
          (response.drop MAX_DISCORD_MESSAGE_LENGTH)).map DeliveryAction.sendChunk

/-! ## Retention sweeper (`infiniteCleanMessages` in `src/main_0603.js`) -/

/-- Record shape of `allMessages` entries in `src/main_0603.js`
(`{ id, referenceMessageId, time, authorName, text }`). -/
structure StoredMessage where
  id : Nat
  referenceMessageId : Option Nat
  time : Nat
  authorName : String
  text : String
deriving Repr, DecidableEq

/-- Message store of `src/main_0603.js`, keyed by message id. -/
abbrev AllMessages := List (Nat × StoredMessage)

/-- Long lifetime for useful messages (`usefulMessagesLifetime`, 7 days). -/
def usefulMessagesLifetime : Nat := 7 * 24 * 3600 * 1000

/-- Short lifetime for other messages (`unusefulMessagesLifetime`, 24 h). -/
def unusefulMessagesLifetime : Nat := 24 * 3600 * 1000

/-- Inner `while (true)` walk of the sweep's useful-set phase, started at one
own-message id: stop when the id is already marked useful (memoization across
walks, which is also the cycle guard within one walk, since every visited id
is marked before its reference is followed); when the id has no record left,
remove it from the own-messages set and stop; otherwise mark it useful and
follow `referenceMessageId`. Each recursive call first marks a new id that
has a record, so `all.length + 1` fuel (as passed by `computeUseful`) is
strictly more than the loop can iterate; the fuel never runs out. -/
def usefulWalk (all : AllMessages) :
    Nat → List Nat → List Nat → Nat → List Nat × List Nat
  | 0, useful, bot, _ => (useful, bot)
  | fuel + 1, useful, bot, lastChainId =>
    if lastChainId ∈ useful then (useful, bot)
    else
      match assocGet all lastChainId with
      | none => (useful, bot.erase lastChainId)
      | some msg =>
        match msg.referenceMessageId with
        | none => (lastChainId :: useful, bot)
        | some ref => usefulWalk all fuel (lastChainId :: useful) bot ref

/-- Useful-set phase of the sweep: one backward walk per own-message id,
iterating over a snapshot of the own-messages set in reverse insertion order
(`[...thisBotMessages].reverse()`), threading the useful set and the live
own-messages set through the walks. -/
def computeUseful (all : AllMessages) (bot : List Nat) : List Nat × List Nat :=
  bot.reverse.foldl
    (fun acc id => usefulWalk all (all.length + 1) acc.1 acc.2 id)
    ([], bot)

/-- Lifetime applicable to a record, by membership in the useful set. -/
def applicableLifetime (useful : List Nat) (id : Nat) : Nat :=
  if id ∈ useful then usefulMessagesLifetime else unusefulMessagesLifetime

/-- One pass of `infiniteCleanMessages`: skip everything when the store is
empty (`continue`), otherwise compute the useful set, collect every record
whose age exceeds its applicable lifetime (`message.time + lifetime < now`)
into `forDeletion`, and delete those records. Returns the surviving store and
the updated own-messages set. -/
def sweepOnce (now : Nat) (all : AllMessages) (bot : List Nat) :
    AllMessages × List Nat :=
  if all.isEmpty then (all, bot)
  else
    (((all.filter fun p =>
          decide (p.2.time + applicableLifetime (computeUseful all bot).1 p.1
            < now)).map Prod.fst).foldl
        (fun a k => assocErase k a) all,
     (computeUseful all bot).2)

/-! ## Helper lemmas on the association list primitives -/

theorem assocGet_erase {β : Type} (k j : Nat) (l : List (Nat × β)) :
    assocGet (assocErase k l) j = if j = k then none else assocGet l j := by
  induction l with
  | nil => simp [assocErase, assocGet]
  | cons p rest ih =>
    by_cases hpk : p.1 = k
    · by_cases hjk : j = k
      · subst hjk
        simp [assocErase, assocGet, hpk, ih]
      · have hpj : ¬ p.1 = j := fun hpj => hjk (hpj.symm.trans hpk)
        have hkj : ¬ k = j := fun h => hjk h.symm
        simp [assocErase, assocGet, hpk, hjk, hpj, hkj, ih]
    · by_cases hpj : p.1 = j
      · have hjk : ¬ j = k := fun hjk => hpk (hpj.trans hjk)
        simp [assocErase, assocGet, hpk, hjk, hpj, ih]
      · simp [assocErase, assocGet, hpk, hpj, ih]

theorem assocGet_set {β : Type} (l : List (Nat × β)) (k j : Nat) (v : β) :
    assocGet (assocSet l k v) j = if j = k then some v else assocGet l j := by
  by_cases hjk : j = k
  · simp [assocSet, assocGet, hjk]
  · have hkj : ¬ k = j := fun h => hjk h.symm
    simp [assocSet, assocGet, hjk, hkj, assocGet_erase]

theorem assocGet_set_ne {β : Type} (l : List (Nat × β)) (k j : Nat) (v : β)
    (h : j ≠ k) : assocGet (assocSet l k v) j = assocGet l j := by
  simp [assocGet_set, h]

theorem assocGet_foldl_erase {β : Type} (dels : List Nat) (l : List (Nat × β)) (j : Nat) :
    assocGet (dels.foldl (fun a k => assocErase k a) l) j =
      if j ∈ dels then none else assocGet l j := by
  induction dels generalizing l with
  | nil => simp
  | cons d ds ih =>
    simp only [List.foldl_cons, ih, assocGet_erase, List.mem_cons]
    by_cases hds : j ∈ ds
    · simp [hds]
    · by_cases hjd : j = d
      · simp [hds, hjd]
      · simp [hds, hjd]

/-! ## C1: the reply chain walk on a reference cycle -/

theorem dialogWalk_cycle_spins (fetch : Nat → Option CacheRecord)
    (botMessages : List Nat) :
    ∀ (fuel : Nat) (dialog : List DialogTurn),
      dialogWalk fetch botMessages fuel cycleCache 1 dialog = none ∧
      dialogWalk fetch botMessages fuel cycleCache 2 dialog = none := by
  intro fuel
  induction fuel with
  | zero => intro dialog; exact ⟨rfl, rfl⟩
  | succ n ih =>
    intro dialog
    constructor
    · have h1 : assocGet cycleCache 1 = some ⟨"first", some 2, "alice"⟩ := rfl
      rw [dialogWalk, h1]
      exact (ih _).2
    · have h2 : assocGet cycleCache 2 = some ⟨"second", some 1, "bob"⟩ := rfl
      rw [dialogWalk, h2]
      exact (ih _).1

/-- C1: the claim states that the dialog-building walk of `generateResponse`
terminates on every reply chain containing a cycle, tracking visited ids or
stopping at a defensive maximum chain length. The source walk is a bare
`while (true)` with no visited set and no depth cap, so on the cached
two-message cycle of `cycleCache` it never reaches a break: for every
iteration budget the embedded walk exhausts its fuel, i.e. the dialog build
runs forever instead of terminating. -/
theorem generateResponse_cycle_diverges (fetch : Nat → Option CacheRecord)
    (botMessages : List Nat) (systemPrompt : String) :
    ∀ fuel : Nat,
      buildDialog fetch botMessages systemPrompt fuel cycleCache 1 = none := by
  intro fuel
  unfold buildDialog
  rw [(dialogWalk_cycle_spins fetch botMessages fuel []).1]
  rfl

/-! ## C2: the reply chain walk on a fully resolvable chain -/

theorem dialogWalk_resolvedChain (fetch : Nat → Option CacheRecord)
    (botMessages : List Nat) :
    ∀ (chain : List (Nat × CacheRecord)) (i : Nat), ReplyChain i chain →
    ∀ (cache : Cache) (acc : List DialogTurn) (fuel : Nat),
      (chain.map Prod.fst).Nodup →
      (∀ e ∈ chain, Resolves cache fetch e) →
      chain.length ≤ fuel →
      ∃ cache', dialogWalk fetch botMessages fuel cache i acc =
        some (acc ++ chain.map (fun e : Nat × CacheRecord => turnFor botMessages e.1 e.2), cache') := by
  intro chain i hchain
  induction hchain with
  | root i r hr =>
    intro cache acc fuel hnodup hres hfuel
    cases fuel with
    | zero => simp at hfuel
    | succ n =>
      have hre := hres (i, r) (by simp)
      cases hre with
      | inl hhit =>
        simp only [dialogWalk, hhit, hr]
        exact ⟨cache, by simp⟩
      | inr hmiss =>
        obtain ⟨hnone, hf⟩ := hmiss
        simp only [dialogWalk, hnone, hf, hr]
        exact ⟨assocSet cache i r, by simp⟩
  | step i r j rest hr htail ih =>
    intro cache acc fuel hnodup hres hfuel
    cases fuel with
    | zero => simp at hfuel
    | succ n =>
      have hlen : rest.length ≤ n := by
        simp only [List.length_cons] at hfuel
        omega
      rw [List.map_cons, List.nodup_cons] at hnodup
      obtain ⟨hnotmem, hnodup'⟩ := hnodup
      have hre := hres (i, r) (by simp)
      cases hre with
      | inl hhit =>
        simp only [dialogWalk, hhit, hr]
        have hres' : ∀ e ∈ rest, Resolves cache fetch e :=
          fun e he => hres e (List.mem_cons_of_mem _ he)
        obtain ⟨c', hc'⟩ :=
          ih cache (acc ++ [turnFor botMessages i r]) n hnodup' hres' hlen
        exact ⟨c', by rw [hc']; simp⟩
      | inr hmiss =>
        obtain ⟨hnone, hf⟩ := hmiss
        simp only [dialogWalk, hnone, hf, hr]
        have hres' : ∀ e ∈ rest, Resolves (assocSet cache i r) fetch e := by
          intro e he
          have hne : e.1 ≠ i := by
            intro h
            have hmem : e.1 ∈ rest.map Prod.fst :=
              List.mem_map_of_mem Prod.fst he
            exact hnotmem (h ▸ hmem)
          have hold := hres e (List.mem_cons_of_mem _ he)
          unfold Resolves at hold ⊢
          rw [assocGet_set_ne _ _ _ _ hne]
          exact hold
        obtain ⟨c', hc'⟩ :=
          ih (assocSet cache i r) (acc ++ [turnFor botMessages i r]) n hnodup' hres' hlen
        exact ⟨c', by rw [hc']; simp⟩

/-- C2: for a reply chain of depth N (leaf first) with distinct ids in which
every link resolves via the cache or the gateway fetch, `generateResponse`
builds a dialog of exactly the chain's N turns in oldest-first order — each
turn's role is `assistant` for the pipeline's own messages and `user`
otherwise, as fixed by `turnFor` — with the instruction turn appended last,
for a total of N + 1 turns. -/
theorem buildDialog_resolvedChain (fetch : Nat → Option CacheRecord)
    (botMessages : List Nat) (systemPrompt : String)
    (chain : List (Nat × CacheRecord)) (i : Nat) (cache : Cache) (fuel : Nat)
    (hchain : ReplyChain i chain)
    (hnodup : (chain.map Prod.fst).Nodup)
    (hres : ∀ e ∈ chain, Resolves cache fetch e)
    (hfuel : chain.length ≤ fuel) :
    ∃ cache', buildDialog fetch botMessages systemPrompt fuel cache i =
      some (chain.reverse.map (fun e : Nat × CacheRecord => turnFor botMessages e.1 e.2)
              ++ ([⟨"system", systemPrompt, none⟩] : List DialogTurn), cache')
      ∧ (chain.reverse.map (fun e : Nat × CacheRecord => turnFor botMessages e.1 e.2)
              ++ ([⟨"system", systemPrompt, none⟩] : List DialogTurn)).length = chain.length + 1 := by
  obtain ⟨c', hc'⟩ :=
    dialogWalk_resolvedChain fetch botMessages chain i hchain cache [] fuel
      hnodup hres hfuel
  refine ⟨c', ?_, by simp⟩
  unfold buildDialog
  rw [hc']
  simp

/-- Leaf record of the concrete two-message chain used as a witness. -/
def chainLeafRecord : CacheRecord := ⟨"hello", some 1, "alice"⟩

/-- Root record of the concrete two-message chain used as a witness. -/
def chainRootRecord : CacheRecord := ⟨"hi", none, "bob"⟩

/-- Cache holding the concrete two-message chain used as a witness. -/
def chainWitnessCache : Cache := [(2, chainLeafRecord), (1, chainRootRecord)]

theorem buildDialog_resolvedChain_witness :
    ∃ cache', buildDialog (fun _ => none) [1] "prompt" 2 chainWitnessCache 2 =
      some (([(2, chainLeafRecord), (1, chainRootRecord)]
                : List (Nat × CacheRecord)).reverse.map
                (fun e : Nat × CacheRecord => turnFor [1] e.1 e.2)
              ++ ([⟨"system", "prompt", none⟩] : List DialogTurn), cache')
      ∧ (([(2, chainLeafRecord), (1, chainRootRecord)]
                : List (Nat × CacheRecord)).reverse.map
                (fun e : Nat × CacheRecord => turnFor [1] e.1 e.2)
              ++ ([⟨"system", "prompt", none⟩] : List DialogTurn)).length =
          ([(2, chainLeafRecord), (1, chainRootRecord)]
                : List (Nat × CacheRecord)).length + 1 :=
  buildDialog_resolvedChain (fun _ => none) [1] "prompt"
    [(2, chainLeafRecord), (1, chainRootRecord)] 2 chainWitnessCache 2
    (ReplyChain.step 2 chainLeafRecord 1 [(1, chainRootRecord)] rfl
      (ReplyChain.root 1 chainRootRecord rfl))
    (by decide) (by decide) (by decide)

/-! ## C3: FIFO processing order of the sequential queue -/

theorem take_drop_of_drop_eq_cons {α : Type} :
    ∀ (l : List α) (k : Nat) (e : α) (rest : List α),
      l.drop k = e :: rest →
      l.take (k + 1) = l.take k ++ [e] ∧ l.drop (k + 1) = rest := by
  intro l
  induction l with
  | nil => intro k e rest h; simp at h
  | cons x xs ih =>
    intro k e rest h
    cases k with
    | zero =>
      simp only [List.drop_zero] at h
      cases h
      simp
    | succ n =>
      simp only [List.drop_succ_cons] at h
      obtain ⟨h1, h2⟩ := ih n e rest h
      refine ⟨?_, ?_⟩
      · simp [List.take_succ_cons, h1]
      · simpa using h2

/-- C3: in every state reachable through the sequential queue, the log of
posted outputs is exactly the concatenation, in arrival order, of the outputs
of some prefix of the arrived events, and the pending events are exactly the
remaining suffix — each queued event is processed fully, in arrival order,
before the next one starts, so reply outputs appear in the same relative
order as their triggering inputs. -/
theorem queue_fifo_order {ε ω : Type} (handler : ε → List ω)
    (s : QueueState ε ω) (h : QueueReachable handler s) :
    ∃ k, k ≤ s.arrived.length ∧
      s.log = (s.arrived.take k).flatMap handler ∧
      s.pending = s.arrived.drop k := by
  induction h with
  | init => exact ⟨0, by simp, by simp, by simp⟩
  | step s t hs hst ih =>
    obtain ⟨k, hk, hlog, hpend⟩ := ih
    cases hst with
    | arrive e =>
      refine ⟨k, ?_, ?_, ?_⟩
      · simp only [List.length_append, List.length_cons, List.length_nil]
        omega
      · rw [List.take_append_of_le_length hk]
        exact hlog
      · rw [List.drop_append_of_le_length hk, ← hpend]
    | process e rest hpq =>
      rw [hpq] at hpend
      obtain ⟨htake, hdrop⟩ := take_drop_of_drop_eq_cons s.arrived k e rest hpend.symm
      have hklt : k + 1 ≤ s.arrived.length := by
        have := congrArg List.length hpend
        simp only [List.length_drop, List.length_cons] at this
        omega
      refine ⟨k + 1, hklt, ?_, ?_⟩
      · rw [htake, List.flatMap_append, hlog]
        simp
      · exact hdrop.symm

theorem queue_fifo_order_witness :
    ∃ k, k ≤ (⟨[1, 2], [2], [1]⟩ : QueueState Nat Nat).arrived.length ∧
      (⟨[1, 2], [2], [1]⟩ : QueueState Nat Nat).log =
        ((⟨[1, 2], [2], [1]⟩ : QueueState Nat Nat).arrived.take k).flatMap
          (fun n => [n]) ∧
      (⟨[1, 2], [2], [1]⟩ : QueueState Nat Nat).pending =
        (⟨[1, 2], [2], [1]⟩ : QueueState Nat Nat).arrived.drop k :=
  queue_fifo_order (fun n => [n]) ⟨[1, 2], [2], [1]⟩
    (QueueReachable.step _ _
      (QueueReachable.step _ _
        (QueueReachable.step _ _ QueueReachable.init (QueueStep.arrive _ 1))
        (QueueStep.arrive _ 2))
      (QueueStep.process _ 1 [2] rfl))

/-! ## C4: oversized input rejection in the earlier variant -/

theorem handleMessageEntry_length_path (isTranslatable : String → Bool)
    (selfId now : Nat) (st : PipelineState) (m : InboundMessage)
    (hbot : m.authorIsBot = false)
    (hlen : MAX_MESSAGE_LENGTH ≤ m.content.length)
    (hallow : (rateConsume now st.rate m.authorId).1 = true) :
    (handleMessageEntry isTranslatable selfId false now st m).1 =
      { outcome := .lengthRejected, ratePointConsumed := true,
        filterEvaluated := false, warningSent := true, cacheWritten := false,
        placeholderCreated := false, lmCalled := false } ∧
    (handleMessageEntry isTranslatable selfId false now st m).2.cache = st.cache := by
  rcases hrc : rateConsume now st.rate m.authorId with ⟨b, rate2⟩
  rw [hrc] at hallow
  simp only at hallow
  subst hallow
  constructor
  · simp [handleMessageEntry, hbot, hrc, hlen, noEffects]
  · simp [handleMessageEntry, hbot, hrc, hlen]

/-- Concrete inbound message of exactly `MAX_MESSAGE_LENGTH` characters. -/
def longInputMessage : InboundMessage :=
  ⟨11, 42, false, String.mk (List.replicate 3000 'a'), 0, none, "alice"⟩

/-- C4 counterexample: the claim states that an oversized input is rejected
before any rate-limit point is consumed. In the source, however,
`rateLimiter.consume` runs before the length check, so a 3000-character
message from an author with budget left takes the length-warning path with a
rate-limit point already consumed (`ratePointConsumed = true`), refuting the
claim at this input; the other observables of the rejection path (warning
sent, filter not evaluated, no cache write, no placeholder, no language-model
call) are as claimed. -/
theorem lengthReject_consumesRatePoint :
    (handleMessageEntry (fun _ => true) 0 false 0 ⟨[], []⟩ longInputMessage).1 =
      { outcome := .lengthRejected, ratePointConsumed := true,
        filterEvaluated := false, warningSent := true, cacheWritten := false,
        placeholderCreated := false, lmCalled := false } :=
  (handleMessageEntry_length_path (fun _ => true) 0 0 ⟨[], []⟩ longInputMessage
    rfl
    (by show MAX_MESSAGE_LENGTH ≤ (String.mk (List.replicate 3000 'a')).length
        rw [String.length_mk, List.length_replicate]
        decide)
    (by decide)).1

/-- C4 (amended): for every inbound non-bot message of length at or above
`MAX_MESSAGE_LENGTH` whose author still passes the rate limiter, the
orchestrator consumes one rate-limit point and then sends the length-warning
notice and returns: the translatability filter is never evaluated, no
placeholder is created, no language-model call is made, and the message cache
is not written. -/
theorem lengthReject_behavior (isTranslatable : String → Bool)
    (selfId now : Nat) (st : PipelineState) (m : InboundMessage)
    (hbot : m.authorIsBot = false)
    (hlen : MAX_MESSAGE_LENGTH ≤ m.content.length)
    (hallow : (rateConsume now st.rate m.authorId).1 = true) :
    (handleMessageEntry isTranslatable selfId false now st m).1 =
      { outcome := .lengthRejected, ratePointConsumed := true,
        filterEvaluated := false, warningSent := true, cacheWritten := false,
        placeholderCreated := false, lmCalled := false } ∧
    (handleMessageEntry isTranslatable selfId false now st m).2.cache = st.cache :=
  handleMessageEntry_length_path isTranslatable selfId now st m hbot hlen hallow

theorem lengthReject_behavior_witness :
    (handleMessageEntry (fun _ => true) 3 false 0 ⟨[], []⟩ longInputMessage).1 =
      { outcome := .lengthRejected, ratePointConsumed := true,
        filterEvaluated := false, warningSent := true, cacheWritten := false,
        placeholderCreated := false, lmCalled := false } ∧
    (handleMessageEntry (fun _ => true) 3 false 0 ⟨[], []⟩ longInputMessage).2.cache =
      (⟨[], []⟩ : PipelineState).cache :=
  lengthReject_behavior (fun _ => true) 3 0 ⟨[], []⟩ longInputMessage rfl
    (by show MAX_MESSAGE_LENGTH ≤ (String.mk (List.replicate 3000 'a')).length
        rw [String.length_mk, List.length_replicate]
        decide)
    (by decide)

/-! ## C7: silent drop of the sixth message inside one rate-limit window -/

theorem handleMessageEntry_rate (isTranslatable : String → Bool)
    (selfId now : Nat) (st : PipelineState) (m : InboundMessage)
    (hbot : m.authorIsBot = false) :
    (handleMessageEntry isTranslatable selfId false now st m).2.rate =
      (rateConsume now st.rate m.authorId).2 := by
  rcases hrc : rateConsume now st.rate m.authorId with ⟨b, rate'⟩
  cases b <;>
    simp only [handleMessageEntry, Bool.false_eq_true, if_false, hbot, hrc] <;>
    split_ifs <;> rfl

theorem rate_after_fresh (now key : Nat) (st : RateState)
    (h : assocGet st key = none) :
    rateConsume now st key = (true, assocSet st key ⟨1, now⟩) := by
  simp [rateConsume, h]

theorem rate_after_inc (now key p w : Nat) (st : RateState)
    (h : assocGet st key = some ⟨p, w⟩)
    (hwin : now < w + RATE_LIMIT_DURATION_MS)
    (hp : p < RATE_LIMIT_POINTS) :
    rateConsume now st key = (true, assocSet st key ⟨p + 1, w⟩) := by
  simp [rateConsume, h, Nat.not_le.mpr hwin, hp]

theorem rate_denied (now key w : Nat) (st : RateState)
    (h : assocGet st key = some ⟨RATE_LIMIT_POINTS, w⟩)
    (hwin : now < w + RATE_LIMIT_DURATION_MS) :
    rateConsume now st key = (false, st) := by
  simp [rateConsume, h, Nat.not_le.mpr hwin]

theorem handleMessageEntry_denied (isTranslatable : String → Bool)
    (selfId now : Nat) (st : PipelineState) (m : InboundMessage)
    (hbot : m.authorIsBot = false)
    (hden : rateConsume now st.rate m.authorId = (false, st.rate)) :
    handleMessageEntry isTranslatable selfId false now st m =
      (noEffects .rateLimited, st) := by
  simp [handleMessageEntry, hbot, hden]

/-- Sequential processing of timestamped inbound messages through the earlier
variant's entry path (one `handleMessage` per queued event). -/
def runEntries (isTranslatable : String → Bool) (selfId : Nat)
    (st : PipelineState) : List (Nat × InboundMessage) → PipelineState
  | [] => st
  | (t, m) :: rest =>
      runEntries isTranslatable selfId
        (handleMessageEntry isTranslatable selfId false t st m).2 rest

/-- C7: with the budget of `RATE_LIMIT_POINTS` (5) points per window, after
five messages from the same non-bot author starting a fresh window, a sixth
message from that author inside the same window is dropped silently: its
outcome is `rateLimited` with every effect flag off (no reply of any kind, no
placeholder, no language-model call, no cache write), and the whole pipeline
state — message cache and rate-limiter state alike — is exactly the state
left by the five prior messages. -/
theorem sixthMessage_silentDrop (isTranslatable : String → Bool)
    (selfId a t1 t2 t3 t4 t5 t6 : Nat)
    (m1 m2 m3 m4 m5 m6 : InboundMessage) (st0 : PipelineState)
    (ha1 : m1.authorId = a) (hb1 : m1.authorIsBot = false)
    (ha2 : m2.authorId = a) (hb2 : m2.authorIsBot = false)
    (ha3 : m3.authorId = a) (hb3 : m3.authorIsBot = false)
    (ha4 : m4.authorId = a) (hb4 : m4.authorIsBot = false)
    (ha5 : m5.authorId = a) (hb5 : m5.authorIsBot = false)
    (ha6 : m6.authorId = a) (hb6 : m6.authorIsBot = false)
    (hfresh : assocGet st0.rate a = none)
    (hw2 : t2 < t1 + RATE_LIMIT_DURATION_MS)
    (hw3 : t3 < t1 + RATE_LIMIT_DURATION_MS)
    (hw4 : t4 < t1 + RATE_LIMIT_DURATION_MS)
    (hw5 : t5 < t1 + RATE_LIMIT_DURATION_MS)
    (hw6 : t6 < t1 + RATE_LIMIT_DURATION_MS) :
    handleMessageEntry isTranslatable selfId false t6
        (runEntries isTranslatable selfId st0
          [(t1, m1), (t2, m2), (t3, m3), (t4, m4), (t5, m5)]) m6 =
      (noEffects .rateLimited,
       runEntries isTranslatable selfId st0
          [(t1, m1), (t2, m2), (t3, m3), (t4, m4), (t5, m5)]) := by
  simp only [runEntries]
  set s1 := (handleMessageEntry isTranslatable selfId false t1 st0 m1).2 with hs1
  set s2 := (handleMessageEntry isTranslatable selfId false t2 s1 m2).2 with hs2
  set s3 := (handleMessageEntry isTranslatable selfId false t3 s2 m3).2 with hs3
  set s4 := (handleMessageEntry isTranslatable selfId false t4 s3 m4).2 with hs4
  set s5 := (handleMessageEntry isTranslatable selfId false t5 s4 m5).2 with hs5
  have e1 : assocGet s1.rate a = some ⟨1, t1⟩ := by
    rw [hs1, handleMessageEntry_rate isTranslatable selfId t1 st0 m1 hb1, ha1,
        rate_after_fresh t1 a st0.rate hfresh]
    simp [assocGet_set]
  have e2 : assocGet s2.rate a = some ⟨2, t1⟩ := by
    rw [hs2, handleMessageEntry_rate isTranslatable selfId t2 s1 m2 hb2, ha2,
        rate_after_inc t2 a 1 t1 s1.rate e1 hw2 (by decide)]
    simp [assocGet_set]
  have e3 : assocGet s3.rate a = some ⟨3, t1⟩ := by
    rw [hs3, handleMessageEntry_rate isTranslatable selfId t3 s2 m3 hb3, ha3,
        rate_after_inc t3 a 2 t1 s2.rate e2 hw3 (by decide)]
    simp [assocGet_set]
  have e4 : assocGet s4.rate a = some ⟨4, t1⟩ := by
    rw [hs4, handleMessageEntry_rate isTranslatable selfId t4 s3 m4 hb4, ha4,
        rate_after_inc t4 a 3 t1 s3.rate e3 hw4 (by decide)]
    simp [assocGet_set]
  have e5 : assocGet s5.rate a = some ⟨5, t1⟩ := by
    rw [hs5, handleMessageEntry_rate isTranslatable selfId t5 s4 m5 hb5, ha5,
        rate_after_inc t5 a 4 t1 s4.rate e4 hw5 (by decide)]
    simp [assocGet_set]
  have hden6 : rateConsume t6 s5.rate m6.authorId = (false, s5.rate) := by
    rw [ha6]
    exact rate_denied t6 a t1 s5.rate e5 hw6
  exact handleMessageEntry_denied isTranslatable selfId t6 s5 m6 hb6 hden6

/-- Concrete short message from author 42, used by the C7 witness. -/
def shortMessageFrom42 (id : Nat) : InboundMessage :=
  ⟨id, 42, false, "hello", 0, none, "user42"⟩

theorem sixthMessage_silentDrop_witness :
    handleMessageEntry (fun _ => true) 0 false 0
        (runEntries (fun _ => true) 0 ⟨[], []⟩
          [(0, shortMessageFrom42 1), (0, shortMessageFrom42 2),
           (0, shortMessageFrom42 3), (0, shortMessageFrom42 4),
           (0, shortMessageFrom42 5)]) (shortMessageFrom42 6) =
      (noEffects .rateLimited,
       runEntries (fun _ => true) 0 ⟨[], []⟩
          [(0, shortMessageFrom42 1), (0, shortMessageFrom42 2),
           (0, shortMessageFrom42 3), (0, shortMessageFrom42 4),
           (0, shortMessageFrom42 5)]) :=
  sixthMessage_silentDrop (fun _ => true) 0 42 0 0 0 0 0 0
    (shortMessageFrom42 1) (shortMessageFrom42 2) (shortMessageFrom42 3)
    (shortMessageFrom42 4) (shortMessageFrom42 5) (shortMessageFrom42 6)
    ⟨[], []⟩ rfl rfl rfl rfl rfl rfl rfl rfl rfl rfl rfl rfl rfl
    (by decide) (by decide) (by decide) (by decide) (by decide)

/-! ## C5: language-model failure handling in the later variant -/

/-- C5 counterexample: the claim states that for every event whose
language-model call fails, the fixed error message is written into the
placeholder. For a re-processed message that already has a posted reply
(`originalToReplyMap` hit with the earlier reply still fetchable), the catch
block instead writes `ERROR_MESSAGE` into that earlier reply and deletes the
placeholder: at this concrete input the placeholder (id 50) is never edited
with the error text, refuting the claim as stated. -/
theorem genFailure_editsExistingReply :
    RenderAction.editMessage 50 ERROR_MESSAGE ∉
      afterPlaceholder 7 50 true (some 99) (Except.error "boom") ∧
    afterPlaceholder 7 50 true (some 99) (Except.error "boom") =
      [RenderAction.clearLoadingInterval, RenderAction.clearLoadingTimeout,
       RenderAction.editMessage 99 ERROR_MESSAGE,
       RenderAction.deleteMessage 50] := by
  decide

/-- C5 (amended): every language-model failure is caught at the orchestrator
boundary and converted into the fixed user-visible `ERROR_MESSAGE`: the
handler always completes with a plain action list (the try block's error
never escapes the catch), for an event with no previously posted reply the
error text is written into the placeholder with both animation timers
stopped, and events queued around the failing one are still processed in
full. (For a re-processed event whose earlier reply still exists, the error
text goes into that reply and the placeholder is deleted.) -/
theorem genFailure_handled (messageId placeholderId : Nat)
    (existingReply : Option Nat) (e : String)
    {ε : Type} (pre post : List ε) (failEv : ε)
    (handler : ε → List RenderAction) :
    afterPlaceholder messageId placeholderId false existingReply
        (Except.error e) =
      [RenderAction.clearLoadingInterval, RenderAction.clearLoadingTimeout,
       RenderAction.editMessage placeholderId ERROR_MESSAGE] ∧
    (∀ gen : Except String String, ∃ acts : List RenderAction,
        afterPlaceholder messageId placeholderId false existingReply gen = acts) ∧
    drainAll handler (pre ++ failEv :: post) =
      drainAll handler pre ++ handler failEv ++ drainAll handler post := by
  refine ⟨?_, fun gen => ⟨_, rfl⟩, ?_⟩
  · cases existingReply <;>
      rfl
  · induction pre with
    | nil => simp [drainAll]
    | cons x xs ih => simp [drainAll, ih]

/-! ## C8: the animation timers are stopped on every exit path -/

theorem applyActions_interval_mono (l : List RenderAction) :
    ∀ t : Timers, t.intervalActive = false →
      (applyActions t l).intervalActive = false := by
  induction l with
  | nil => intro t h; exact h
  | cons a rest ih =>
    intro t h
    cases a <;>
      exact ih _ (by simp [applyAction, h])

theorem timersAt_timeout_off_interval_off (terminalAt : Option Nat) :
    ∀ t : Nat, (timersAt terminalAt t).timeoutActive = false →
      (timersAt terminalAt t).intervalActive = false := by
  intro t
  induction t with
  | zero => intro h; exact h
  | succ n ih =>
    intro h
    rw [timersAt] at h ⊢
    by_cases hc : (n + 1 = MAX_LOADING_DURATION_MS ∧
        (if terminalAt = some (n + 1) then (⟨false, false⟩ : Timers)
         else timersAt terminalAt n).timeoutActive = true)
    · rw [if_pos hc]
    · rw [if_neg hc] at h ⊢
      by_cases hterm : terminalAt = some (n + 1)
      · rw [if_pos hterm]
      · rw [if_neg hterm] at h ⊢
        exact ih h

theorem timersAt_after_cap (terminalAt : Option Nat) :
    ∀ t : Nat, MAX_LOADING_DURATION_MS ≤ t →
      (timersAt terminalAt t).intervalActive = false := by
  intro t
  induction t with
  | zero => intro h; exact absurd h (by decide)
  | succ n ih =>
    intro h
    rw [timersAt]
    by_cases hc : (n + 1 = MAX_LOADING_DURATION_MS ∧
        (if terminalAt = some (n + 1) then (⟨false, false⟩ : Timers)
         else timersAt terminalAt n).timeoutActive = true)
    · rw [if_pos hc]
    · rw [if_neg hc]
      by_cases hterm : terminalAt = some (n + 1)
      · rw [if_pos hterm]
      · rw [if_neg hterm]
        by_cases heq : n + 1 = MAX_LOADING_DURATION_MS
        · have htimeout : (timersAt terminalAt n).timeoutActive = false := by
            cases hb : (timersAt terminalAt n).timeoutActive with
            | false => rfl
            | true => exact absurd ⟨heq, by rw [if_neg hterm]; exact hb⟩ hc
          exact timersAt_timeout_off_interval_off terminalAt n htimeout
        · exact ih (by omega)

/-- C8: both halves of the timer teardown contract of the later variant.
First, for every exit path of the handler after the placeholder is posted —
success, sentinel deletion, edit-reuse, or language-model failure, for any
combination of reply-map state and fetched previous reply — the emitted
action list leaves the animation interval stopped. Second, independently of
any terminal call (including none having arrived), the animation stops itself
once `MAX_LOADING_DURATION_MS` (10 s) has elapsed since start, because the
cap timeout fires and clears the interval. -/
theorem animation_timer_stopped :
    (∀ (messageId placeholderId : Nat) (hasReply : Bool)
        (existingReply : Option Nat) (gen : Except String String),
      (applyActions ⟨true, true⟩
          (afterPlaceholder messageId placeholderId hasReply existingReply
            gen)).intervalActive = false) ∧
    (∀ (terminalAt : Option Nat) (t : Nat), MAX_LOADING_DURATION_MS ≤ t →
      (timersAt terminalAt t).intervalActive = false) := by
  constructor
  · intro messageId placeholderId hasReply existingReply gen
    have hstep : ∀ rest : List RenderAction,
        (applyActions ⟨true, true⟩
          (RenderAction.clearLoadingInterval :: rest)).intervalActive = false := by
      intro rest
      exact applyActions_interval_mono rest _ rfl
    cases gen with
    | error e =>
      cases hasReply <;> cases existingReply <;>
        exact hstep _
    | ok response =>
      by_cases hs : isNotTranslatableResponse response = true
      · simp only [afterPlaceholder, afterPlaceholderTry, hs, if_pos rfl]
        exact hstep _
      · rw [Bool.not_eq_true] at hs
        cases hasReply <;> cases existingReply <;>
          · simp only [afterPlaceholder, afterPlaceholderTry, hs]
            exact hstep _
  · exact timersAt_after_cap

theorem animation_timer_stopped_witness :
    (applyActions ⟨true, true⟩
        (afterPlaceholder 7 50 false none (Except.error "boom"))).intervalActive
      = false ∧
    (MAX_LOADING_DURATION_MS ≤ 10000 ∧
      (timersAt none 10000).intervalActive = false) :=
  ⟨animation_timer_stopped.1 7 50 false none (Except.error "boom"),
   by decide,
   animation_timer_stopped.2 none 10000 (by decide)⟩

/-! ## C6: delivery of oversized responses in the earlier variant -/

theorem overflowChunkLoop_nil (origMsgId fuel nextId : Nat) :
    overflowChunkLoop origMsgId fuel nextId [] = [] := by
  cases fuel with
  | zero => rfl
  | succ n => rw [overflowChunkLoop, if_pos rfl]

theorem overflowChunkLoop_pos (origMsgId fuel nextId : Nat) (left : List Char)
    (hf : 0 < fuel) (hl : left ≠ []) :
    overflowChunkLoop origMsgId fuel nextId left =
      { replyTarget := origMsgId, newId := nextId,
        text := left.take MAX_DISCORD_MESSAGE_LENGTH } ::
        overflowChunkLoop origMsgId (fuel - 1) (nextId + 1)
          (left.drop MAX_DISCORD_MESSAGE_LENGTH) := by
  cases fuel with
  | zero => omega
  | succ n =>
    rw [overflowChunkLoop, if_neg hl]
    simp

/-- C6: the claim states that each overflow chunk beyond the first is posted
as a reply chained to the previous chunk. Evaluating the delivery loop on a
3901-character response (original message id 7, placeholder id 50, gateway
ids 100 and 101 for the two overflow posts) shows: the split itself is
correct — the placeholder is edited to the first 1950 characters, no chunk
exceeds `MAX_DISCORD_MESSAGE_LENGTH`, and the chunks concatenate back to the
response — but both overflow chunks are posted as replies to the original
message (target 7), not chained to the placeholder (50) or to the preceding
chunk (100): the source calls `message.reply(s)` while its `prevMessage`
variable is reassigned and never used, against the spec and against the
sibling revision `src/main_0603.js`, which chains via `prevMessage.reply(s)`. -/
theorem chunkDelivery_repliesToOriginal :
    deliverResponse 7 50 100 (List.replicate 3901 'a') =
      [DeliveryAction.editPlaceholder 50 (List.replicate 1950 'a'),
       DeliveryAction.sendChunk ⟨7, 100, List.replicate 1950 'a'⟩,
       DeliveryAction.sendChunk ⟨7, 101, List.replicate 1 'a'⟩] ∧
    (List.replicate 1950 'a' ++ (List.replicate 1950 'a' ++ List.replicate 1 'a')
        : List Char) = List.replicate 3901 'a' ∧
    (7 : Nat) ≠ 50 ∧ (7 : Nat) ≠ 100 := by
  have hne1 : (List.replicate 1951 'a' : List Char) ≠ [] := by
    intro h
    have hlen := congrArg List.length h
    rw [List.length_replicate, List.length_nil] at hlen
    exact absurd hlen (by decide)
  have hne2 : (List.replicate 1 'a' : List Char) ≠ [] := by
    intro h
    have hlen := congrArg List.length h
    rw [List.length_replicate, List.length_nil] at hlen
    exact absurd hlen (by decide)
  have h1 : List.take MAX_DISCORD_MESSAGE_LENGTH (List.replicate 3901 'a') =
      List.replicate 1950 'a' := by
    rw [List.take_replicate,
        (by decide : MAX_DISCORD_MESSAGE_LENGTH ⊓ 3901 = 1950)]
  have h2 : List.drop MAX_DISCORD_MESSAGE_LENGTH (List.replicate 3901 'a') =
      List.replicate 1951 'a' := by
    rw [List.drop_replicate,
        (by decide : 3901 - MAX_DISCORD_MESSAGE_LENGTH = 1951)]
  have h3 : List.take MAX_DISCORD_MESSAGE_LENGTH (List.replicate 1951 'a') =
      List.replicate 1950 'a' := by
    rw [List.take_replicate,
        (by decide : MAX_DISCORD_MESSAGE_LENGTH ⊓ 1951 = 1950)]
  have h4 : List.drop MAX_DISCORD_MESSAGE_LENGTH (List.replicate 1951 'a') =
      List.replicate 1 'a' := by
    rw [List.drop_replicate,
        (by decide : 1951 - MAX_DISCORD_MESSAGE_LENGTH = 1)]
  have h5 : List.take MAX_DISCORD_MESSAGE_LENGTH (List.replicate 1 'a') =
      List.replicate 1 'a' := by
    rw [List.take_replicate,
        (by decide : MAX_DISCORD_MESSAGE_LENGTH ⊓ 1 = 1)]
  have h6 : List.drop MAX_DISCORD_MESSAGE_LENGTH (List.replicate 1 'a') =
      ([] : List Char) := by
    rw [List.drop_replicate,
        (by decide : 1 - MAX_DISCORD_MESSAGE_LENGTH = 0)]
    rfl
  refine ⟨?_, ?_, by decide, by decide⟩
  · rw [deliverResponse, List.length_replicate, if_neg (by decide), h1, h2]
    rw [overflowChunkLoop_pos 7 3901 100 _ (by norm_num) hne1, h3, h4]
    rw [overflowChunkLoop_pos 7 (3901 - 1) 101 _ (by norm_num) hne2, h5, h6]
    rw [overflowChunkLoop_nil]
    rfl
  · rw [← List.replicate_add, ← List.replicate_add]

/-! ## C9: differential-lifetime deletion rule of the retention sweep -/

theorem keys_of_filter_subset {β : Type} (P : Nat × β → Bool)
    (l : List (Nat × β)) (j : Nat)
    (h : j ∈ (l.filter P).map Prod.fst) : j ∈ l.map Prod.fst := by
  obtain ⟨p, hp, rfl⟩ := List.mem_map.mp h
  exact List.mem_map_of_mem Prod.fst (List.mem_of_mem_filter hp)

theorem mem_filter_keys_iff {β : Type} (P : Nat × β → Bool) (j : Nat) :
    ∀ l : List (Nat × β), (l.map Prod.fst).Nodup →
      (j ∈ (l.filter P).map Prod.fst ↔
        ∃ r, assocGet l j = some r ∧ P (j, r) = true) := by
  intro l
  induction l with
  | nil =>
    intro _
    simp [assocGet]
  | cons p rest ih =>
    intro hnodup
    rw [List.map_cons, List.nodup_cons] at hnodup
    obtain ⟨hnm, hnd⟩ := hnodup
    by_cases hpj : p.1 = j
    · cases hP : P p with
      | true =>
        constructor
        · intro _
          refine ⟨p.2, ?_, ?_⟩
          · rw [assocGet, if_pos hpj]
          · rw [← hpj]
            exact hP
        · intro _
          rw [List.filter_cons_of_pos hP, List.map_cons, ← hpj]
          exact List.mem_cons_self _ _
      | false =>
        rw [List.filter_cons_of_neg (by simp [hP])]
        constructor
        · intro hmem
          exact absurd (keys_of_filter_subset P rest j hmem) (hpj ▸ hnm)
        · rintro ⟨r, hr, hPr⟩
          rw [assocGet, if_pos hpj] at hr
          injection hr with hr2
          subst hr2
          rw [← hpj] at hPr
          exact absurd (show P p = true from hPr) (by simp [hP])
    · have hstep := ih hnd
      cases hP : P p with
      | true =>
        rw [List.filter_cons_of_pos hP, List.map_cons, assocGet, if_neg hpj]
        constructor
        · intro hmem
          rcases List.mem_cons.mp hmem with h1 | h2
          · exact absurd h1.symm hpj
          · exact hstep.mp h2
        · intro hr
          exact List.mem_cons_of_mem _ (hstep.mpr hr)
      | false =>
        rw [List.filter_cons_of_neg (by simp [hP]), assocGet, if_neg hpj]
        exact hstep

/-- C9: on a sweep pass, a cached record survives exactly when its age does
not exceed its applicable lifetime: writing `useful` for the set computed by
the backward reference walks with memoization (`computeUseful`), a record
with id in `useful` is deleted precisely when `now - createdAt` exceeds
`usefulMessagesLifetime` (7 days), and any other record precisely when it
exceeds `unusefulMessagesLifetime` (24 hours); the source phrases the
condition as `message.time + lifetime < now`. -/
theorem sweep_lifetime_rule (now : Nat) (all : AllMessages) (bot : List Nat)
    (id : Nat) (r : StoredMessage)
    (hnodup : (all.map Prod.fst).Nodup) :
    assocGet (sweepOnce now all bot).1 id = some r ↔
      (assocGet all id = some r ∧
       ¬ (r.time + applicableLifetime (computeUseful all bot).1 id < now)) := by
  by_cases hempty : all.isEmpty
  · have hnil : all = [] := List.isEmpty_iff.mp hempty
    subst hnil
    simp [sweepOnce, assocGet]
  · rw [sweepOnce, if_neg hempty]
    simp only []
    rw [assocGet_foldl_erase]
    by_cases hdel : id ∈ ((all.filter fun p =>
        decide (p.2.time +
          applicableLifetime (computeUseful all bot).1 p.1 < now)).map Prod.fst)
    · rw [if_pos hdel]
      obtain ⟨r', hr', hPr'⟩ := (mem_filter_keys_iff _ id all hnodup).mp hdel
      constructor
      · intro h
        exact absurd h (by simp)
      · rintro ⟨hget, hcond⟩
        rw [hget] at hr'
        injection hr' with hr2
        subst hr2
        exact absurd (of_decide_eq_true hPr') hcond
    · rw [if_neg hdel]
      constructor
      · intro hget
        refine ⟨hget, fun hcond => ?_⟩
        exact hdel ((mem_filter_keys_iff _ id all hnodup).mpr
          ⟨r, hget, decide_eq_true hcond⟩)
      · intro h
        exact h.1

/-- Record with id 1 used by the sweep witnesses. -/
def sweepRecordOne : StoredMessage := ⟨1, none, 0, "ann", "first"⟩

/-- Record with id 2 used by the sweep witnesses. -/
def sweepRecordTwo : StoredMessage := ⟨2, none, 0, "ben", "second"⟩

theorem sweep_lifetime_rule_witness :
    (assocGet (sweepOnce 90000000 [(1, sweepRecordOne), (2, sweepRecordTwo)]
        [1]).1 1 = some sweepRecordOne ↔
      (assocGet [(1, sweepRecordOne), (2, sweepRecordTwo)] 1 =
          some sweepRecordOne ∧
       ¬ (sweepRecordOne.time +
            applicableLifetime
              (computeUseful [(1, sweepRecordOne), (2, sweepRecordTwo)] [1]).1 1
            < 90000000))) :=
  sweep_lifetime_rule 90000000 [(1, sweepRecordOne), (2, sweepRecordTwo)]
    [1] 1 sweepRecordOne (by decide)

/-! ## C10: frame effects of the retention sweep on the own-messages set -/

theorem usefulWalk_bot_subset (all : AllMessages) :
    ∀ (fuel : Nat) (useful bot : List Nat) (id x : Nat),
      x ∈ (usefulWalk all fuel useful bot id).2 → x ∈ bot := by
  intro fuel
  induction fuel with
  | zero => intro useful bot id x h; exact h
  | succ n ih =>
    intro useful bot id x h
    rw [usefulWalk] at h
    by_cases hmem : id ∈ useful
    · simp only [if_pos hmem] at h
      exact h
    · simp only [if_neg hmem] at h
      cases hget : assocGet all id with
      | none =>
        simp only [hget] at h
        exact List.mem_of_mem_erase h
      | some msg =>
        simp only [hget] at h
        cases href : msg.referenceMessageId with
        | none => simp only [href] at h; exact h
        | some ref =>
          simp only [href] at h
          exact ih _ _ _ _ h

theorem usefulWalk_bot_nodup (all : AllMessages) :
    ∀ (fuel : Nat) (useful bot : List Nat) (id : Nat),
      bot.Nodup → (usefulWalk all fuel useful bot id).2.Nodup := by
  intro fuel
  induction fuel with
  | zero => intro useful bot id h; exact h
  | succ n ih =>
    intro useful bot id h
    rw [usefulWalk]
    by_cases hmem : id ∈ useful
    · simp only [if_pos hmem]
      exact h
    · simp only [if_neg hmem]
      cases hget : assocGet all id with
      | none =>
        simp only [hget]
        exact List.Nodup.erase id h
      | some msg =>
        simp only [hget]
        cases href : msg.referenceMessageId with
        | none => simp only [href]; exact h
        | some ref => simp only [href]; exact ih _ _ _ h

theorem usefulWalk_keeps_resolvable (all : AllMessages) :
    ∀ (fuel : Nat) (useful bot : List Nat) (id x : Nat),
      x ∈ bot → (assocGet all x).isSome = true →
      x ∈ (usefulWalk all fuel useful bot id).2 := by
  intro fuel
  induction fuel with
  | zero => intro useful bot id x hx _; exact hx
  | succ n ih =>
    intro useful bot id x hx hsome
    rw [usefulWalk]
    by_cases hmem : id ∈ useful
    · simp only [if_pos hmem]
      exact hx
    · simp only [if_neg hmem]
      cases hget : assocGet all id with
      | none =>
        simp only [hget]
        have hne : x ≠ id := by
          intro hxi
          rw [hxi, hget] at hsome
          simp at hsome
        exact (List.mem_erase_of_ne hne).mpr hx
      | some msg =>
        simp only [hget]
        cases href : msg.referenceMessageId with
        | none => simp only [href]; exact hx
        | some ref => simp only [href]; exact ih _ _ _ _ hx hsome

theorem usefulWalk_useful_resolvable (all : AllMessages) :
    ∀ (fuel : Nat) (useful bot : List Nat) (id : Nat),
      (∀ u ∈ useful, (assocGet all u).isSome = true) →
      ∀ u ∈ (usefulWalk all fuel useful bot id).1,
        (assocGet all u).isSome = true := by
  intro fuel
  induction fuel with
  | zero => intro useful bot id hinv; exact hinv
  | succ n ih =>
    intro useful bot id hinv
    rw [usefulWalk]
    by_cases hmem : id ∈ useful
    · simp only [if_pos hmem]
      exact hinv
    · simp only [if_neg hmem]
      cases hget : assocGet all id with
      | none =>
        simp only [hget]
        exact hinv
      | some msg =>
        simp only [hget]
        have hinv2 : ∀ u ∈ id :: useful, (assocGet all u).isSome = true := by
          intro u hu
          rcases List.mem_cons.mp hu with h1 | h2
          · rw [h1, hget]; rfl
          · exact hinv u h2
        cases href : msg.referenceMessageId with
        | none => simp only [href]; exact hinv2
        | some ref => simp only [href]; exact ih _ _ _ hinv2

theorem usefulWalk_erases_dangling (all : AllMessages) (fuel : Nat)
    (useful bot : List Nat) (id : Nat)
    (hmem : id ∉ useful) (hget : assocGet all id = none) :
    usefulWalk all (fuel + 1) useful bot id = (useful, bot.erase id) := by
  rw [usefulWalk]
  simp only [if_neg hmem, hget]

theorem foldWalk_bot_subset (all : AllMessages) :
    ∀ (ids : List Nat) (acc : List Nat × List Nat) (x : Nat),
      x ∈ (ids.foldl
            (fun acc id => usefulWalk all (all.length + 1) acc.1 acc.2 id)
            acc).2 →
      x ∈ acc.2 := by
  intro ids
  induction ids with
  | nil => intro acc x h; exact h
  | cons i rest ih =>
    intro acc x h
    simp only [List.foldl_cons] at h
    exact usefulWalk_bot_subset all _ _ _ _ _ (ih _ _ h)

theorem foldWalk_keeps_resolvable (all : AllMessages) :
    ∀ (ids : List Nat) (acc : List Nat × List Nat) (x : Nat),
      x ∈ acc.2 → (assocGet all x).isSome = true →
      x ∈ (ids.foldl
            (fun acc id => usefulWalk all (all.length + 1) acc.1 acc.2 id)
            acc).2 := by
  intro ids
  induction ids with
  | nil => intro acc x hx _; exact hx
  | cons i rest ih =>
    intro acc x hx hsome
    simp only [List.foldl_cons]
    exact ih _ x (usefulWalk_keeps_resolvable all _ _ _ _ _ hx hsome) hsome

theorem foldWalk_removes_dangling (all : AllMessages) :
    ∀ (ids : List Nat) (acc : List Nat × List Nat) (x : Nat),
      (∀ u ∈ acc.1, (assocGet all u).isSome = true) →
      acc.2.Nodup →
      x ∈ ids → assocGet all x = none →
      x ∉ (ids.foldl
            (fun acc id => usefulWalk all (all.length + 1) acc.1 acc.2 id)
            acc).2 := by
  intro ids
  induction ids with
  | nil =>
    intro acc x _ _ hx _
    simp at hx
  | cons i rest ih =>
    intro acc x hinv hnd hx hget
    simp only [List.foldl_cons]
    by_cases hxrest : x ∈ rest
    · exact ih _ x (usefulWalk_useful_resolvable all _ _ _ _ hinv)
        (usefulWalk_bot_nodup all _ _ _ _ hnd) hxrest hget
    · have hxi : x = i := by
        rcases List.mem_cons.mp hx with h1 | h2
        · exact h1
        · exact absurd h2 hxrest
      subst hxi
      have hnmem : x ∉ acc.1 := by
        intro hmem
        have hsome := hinv x hmem
        rw [hget] at hsome
        simp at hsome
      rw [usefulWalk_erases_dangling all all.length acc.1 acc.2 x hnmem hget]
      intro hcontra
      have hmem2 := foldWalk_bot_subset all rest _ x hcontra
      exact absurd ((List.Nodup.mem_erase_iff hnd).mp hmem2).1 (by simp)

/-- C10 counterexample: the claim states that on each retention sweep, every
own-message id whose record is absent from the message cache is removed from
the own-messages set. A sweep pass over an empty cache short-circuits
(`continue`) before the useful-set walks, so an own id with no record (id 5
here) survives the pass, refuting the claim as stated. -/
theorem emptyCacheSweep_keepsDanglingOwnId :
    5 ∈ (sweepOnce 0 ([] : AllMessages) [5]).2 ∧
    assocGet ([] : AllMessages) 5 = none := by
  decide

/-- C10 (amended): on every sweep pass whose message cache is nonempty (a
pass over an empty cache returns immediately and mutates nothing), the sweep
removes from the own-messages set exactly the ids whose record is no longer
cached: an own id with no cached record is removed, an own id whose record is
still cached stays, and every record surviving the sweep is returned exactly
as it was stored — the sweep deletes records but never modifies a field. -/
theorem sweep_frame_effects (now : Nat) (all : AllMessages) (bot : List Nat)
    (hne : all.isEmpty = false) (hbot : bot.Nodup) :
    (∀ m ∈ bot, assocGet all m = none → m ∉ (sweepOnce now all bot).2) ∧
    (∀ m ∈ bot, (assocGet all m).isSome = true → m ∈ (sweepOnce now all bot).2) ∧
    (∀ (id : Nat) (r : StoredMessage),
        assocGet (sweepOnce now all bot).1 id = some r →
        assocGet all id = some r) := by
  have hcond : ¬ (all.isEmpty = true) := by simp [hne]
  refine ⟨?_, ?_, ?_⟩
  · intro m hm hget
    rw [sweepOnce, if_neg hcond]
    simp only []
    unfold computeUseful
    exact foldWalk_removes_dangling all bot.reverse ([], bot) m
      (by intro u hu; simp at hu) hbot (List.mem_reverse.mpr hm) hget
  · intro m hm hsome
    rw [sweepOnce, if_neg hcond]
    simp only []
    unfold computeUseful
    exact foldWalk_keeps_resolvable all bot.reverse ([], bot) m hm hsome
  · intro id r hget
    rw [sweepOnce, if_neg hcond] at hget
    simp only [] at hget
    rw [assocGet_foldl_erase] at hget
    by_cases hdel : id ∈ ((all.filter fun p =>
        decide (p.2.time +
          applicableLifetime (computeUseful all bot).1 p.1 < now)).map Prod.fst)
    · rw [if_pos hdel] at hget
      exact absurd hget (by simp)
    · rw [if_neg hdel] at hget
      exact hget

theorem sweep_frame_effects_witness :
    2 ∉ (sweepOnce 0 [(1, sweepRecordOne)] [1, 2]).2 ∧
    1 ∈ (sweepOnce 0 [(1, sweepRecordOne)] [1, 2]).2 :=
  ⟨(sweep_frame_effects 0 [(1, sweepRecordOne)] [1, 2] rfl (by decide)).1
      2 (by decide) (by decide),
   (sweep_frame_effects 0 [(1, sweepRecordOne)] [1, 2] rfl (by decide)).2.1
      1 (by decide) (by decide)⟩
